import Mathlib

/-!
Shallow embedding of `scripts/battery_replay.py` (battery discharge replay
and power profiling bench).

Modelling conventions:
* Python floats are embedded as exact rationals (`ℚ`); `round(x, 2)` is
  modelled as round-to-nearest on hundredths (`round2`).
* `np.interp(x, xp, fp)` is embedded as `npInterp` over the list of
  `(offset, voltage)` pairs, for ascending `xp` (numpy's documented
  precondition; the spec's data model assumes offsets ascending).
* The program's externally visible behaviour is a trace of hardware
  events (`Ev`) plus a process outcome.  The environment (`Env`) supplies
  everything the program reads from the outside world: the identity
  response, the parsed profile columns, successive `time.time()` readings,
  sensor readings, and fault injection (a Python `Exception` or a
  `KeyboardInterrupt`) at a given loop iteration's sensor read.
* The replay loop is modelled with fuel (`replayLoop`); running out of
  fuel yields the distinguished `LoopEnd.fuelOut`, never confused with a
  real termination.
* Console printing, file I/O on the CSV log (other than the sample rows
  themselves) and decimal string formatting of the written rows are not
  modelled; a sample row event carries the exact values of the iteration.
-/

/-- Model of Python `round(x, 2)`: round to the nearest hundredth
(ties do not matter for any claim; round-to-nearest-half-up is used). -/
def round2 (x : ℚ) : ℚ := (round (100 * x) : ℚ) / 100

/-- Model of `np.interp x xp fp` for ascending `xp`, over the zipped list
of `(offset, voltage)` pairs: clamp below the first offset and above the
last offset, linear interpolation on the bracketing segment otherwise. -/
def npInterp (x : ℚ) : List (ℚ × ℚ) → ℚ
  | [] => 0
  | [(_, v)] => v
  | (t0, v0) :: (t1, v1) :: rest =>
    if x < t1 then
      (if x < t0 then v0 else v0 + (v1 - v0) * (x - t0) / (t1 - t0))
    else npInterp x ((t1, v1) :: rest)

/-- Source: `offsets = [t - t_start_profile for t in profile_times]` with
`t_start_profile = profile_times[0]`. -/
def mkOffsets (epochs : List ℚ) : List ℚ := epochs.map (fun t => t - epochs.headI)

/-- Source: `total_duration = offsets[-1]`. -/
def totalDuration (offs : List ℚ) : ℚ := offs.getLastD 0

/-- The profile as the list of (offset, voltage) pairs handed to the
interpolator (`np.interp(elapsed, offsets, profile_voltages)`). -/
def profilePts (epochs volts : List ℚ) : List (ℚ × ℚ) := (mkOffsets epochs).zip volts

/-- Kind of injected fault: a Python `Exception` subclass, or a
`KeyboardInterrupt` (which derives from `BaseException`, not `Exception`). -/
inductive FaultKind
  | exc
  | interrupt
deriving DecidableEq

/-- Externally visible hardware events of the program, in order:
INA219 initialisation, the `*IDN?` serial probe, `ISET1`, `VSET1`,
`OUT1`, `OUT0` commands, the start-up verification read, the per-iteration
sensor read, the sample row written to the output log, `psu.close()`. -/
inductive Ev
  | inaInit
  | idnProbe
  | iset (i : ℚ)
  | vset (v : ℚ)
  | out1
  | out0
  | sensorCheck
  | sensorRead (k : ℕ)
  | row (elapsed target v i p : ℚ)
  | closePSU
deriving DecidableEq

/-- Process outcome: `sys.exit code`, an uncaught `KeyboardInterrupt`
propagating out of the script (interpreter terminates abnormally), or the
model running out of fuel. -/
inductive Outcome
  | exited (code : ℕ)
  | uncaughtInterrupt
  | fuelOut
deriving DecidableEq

/-- End marker of the replay loop body. -/
inductive LoopEnd
  | finished
  | raisedExc
  | raisedInterrupt
  | fuelOut
deriving DecidableEq

/-- Everything the program reads from the outside world. `clock n` is the
value of the n-th `time.time()` call (call 0 is `start_time`; iteration k
of the loop performs call `k+1`).  `sensor k` is the triple
(bus voltage, current mA, power mW) read at loop iteration k.  `fault k`
optionally injects an exception at iteration k's sensor read. -/
structure Env where
  idn : String
  epochs : List ℚ
  volts : List ℚ
  climit : ℚ
  clock : ℕ → ℚ
  sensor : ℕ → ℚ × ℚ × ℚ
  fault : ℕ → Option FaultKind

/-- Source lines 142-144: `if target_v != last_set_voltage: set_voltage(target_v);
last_set_voltage = target_v`.  `last = none` models the initial
`last_set_voltage = None`, which compares unequal to every float. -/
def debounceStep (last : Option ℚ) (target : ℚ) : List Ev × Option ℚ :=
  if some target ≠ last then ([Ev.vset target], some target) else ([], last)

/-- The `while True` polling loop (source lines 133-174), with fuel.
Per iteration: read the clock, break when `elapsed > total_duration`,
interpolate and round the target, debounce the `VSET1` command, then read
the sensor (the fault-injection point), write the sample row, recurse. -/
def replayLoop (env : Env) (D : ℚ) (pts : List (ℚ × ℚ)) :
    ℕ → ℕ → Option ℚ → List Ev × LoopEnd
  | 0, _, _ => ([], LoopEnd.fuelOut)
  | fuel + 1, k, last =>
    let elapsed := env.clock (k + 1) - env.clock 0
    if D < elapsed then ([], LoopEnd.finished)
    else
      let target := round2 (npInterp elapsed pts)
      let db := debounceStep last target
      match env.fault k with
      | some FaultKind.exc => (db.1, LoopEnd.raisedExc)
      | some FaultKind.interrupt => (db.1, LoopEnd.raisedInterrupt)
      | none =>
        let s := env.sensor k
        let rest := replayLoop env D pts fuel (k + 1) db.2
        (db.1 ++ Ev.sensorRead k :: Ev.row elapsed target s.1 s.2.1 s.2.2 :: rest.1,
         rest.2)

/-- Start-up sequence once the profile is loaded (source lines 106-112):
`set_current(limit)`, `set_voltage(profile_voltages[0])` (which rounds its
argument), `output_on()`, then the `v_check = ina.bus_voltage` read.
The INA219 connection and the `*IDN?` probe happened earlier. -/
def startupEvs (env : Env) : List Ev :=
  [Ev.inaInit, Ev.idnProbe, Ev.iset env.climit,
   Ev.vset (round2 env.volts.headI), Ev.out1, Ev.sensorCheck]

/-- The whole program run: INA219 setup and PSU `*IDN?` probe first; empty
identity response exits 2; then the profile is loaded and a length < 2
profile exits 2; otherwise the start-up commands run, then the loop.
Normal loop exit and a caught `Exception` both do `output_off(); psu.close()`
(exit 0 resp. 2); an uncaught `KeyboardInterrupt` skips both. -/
def mainRun (env : Env) (fuel : ℕ) : List Ev × Outcome :=
  if env.idn = "" then ([Ev.inaInit, Ev.idnProbe], Outcome.exited 2)
  else if env.epochs.length < 2 then ([Ev.inaInit, Ev.idnProbe], Outcome.exited 2)
  else
    let D := totalDuration (mkOffsets env.epochs)
    let pts := profilePts env.epochs env.volts
    let l := replayLoop env D pts fuel 0 none
    match l.2 with
    | LoopEnd.finished => (startupEvs env ++ l.1 ++ [Ev.out0, Ev.closePSU], Outcome.exited 0)
    | LoopEnd.raisedExc => (startupEvs env ++ l.1 ++ [Ev.out0, Ev.closePSU], Outcome.exited 2)
    | LoopEnd.raisedInterrupt => (startupEvs env ++ l.1, Outcome.uncaughtInterrupt)
    | LoopEnd.fuelOut => (startupEvs env ++ l.1, Outcome.fuelOut)

/-- One recorded sample, as retained in memory for the reporter
(`data_bus_v`, `data_current`, `data_power` entries of one iteration). -/
structure SampleRec where
  busV : ℚ
  currentMA : ℚ
  powerMW : ℚ
deriving DecidableEq

/-- Arithmetic mean of a list of rationals (`np.mean`). -/
def listMean (l : List ℚ) : ℚ := l.sum / l.length

/-- Maximum of a list (`np.max`); 0 on the empty list (unreached: the
reporter only runs after at least one sample in any terminating run). -/
def listMax : List ℚ → ℚ
  | [] => 0
  | x :: xs => xs.foldl max x

/-- Minimum of a list (`np.min`); 0 on the empty list. -/
def listMin : List ℚ → ℚ
  | [] => 0
  | x :: xs => xs.foldl min x

/-- Source line 188: `data_bus_v * data_current / 1000` (watts). -/
def derivedPowerW (r : SampleRec) : ℚ := r.busV * r.currentMA / 1000

/-- The summary statistics the reporter computes (source lines 186-198).
`varCurrent` is the square of `np.std(data_current)` (population variance,
`ddof = 0`), kept squared because the embedding is exact-rational. -/
structure RunSummary where
  avgCurrent : ℚ
  peakCurrent : ℚ
  minCurrent : ℚ
  varCurrent : ℚ
  avgPowerW : ℚ
  peakPowerW : ℚ
  minVoltageSeen : ℚ
  maxVoltageSeen : ℚ
deriving DecidableEq

/-- The reporter: current stats from `data_current`, power stats from
`data_bus_v * data_current / 1000`, voltage extrema from `data_bus_v`. -/
def summarize (recs : List SampleRec) : RunSummary :=
  { avgCurrent := listMean (recs.map SampleRec.currentMA)
    peakCurrent := listMax (recs.map SampleRec.currentMA)
    minCurrent := listMin (recs.map SampleRec.currentMA)
    varCurrent := listMean ((recs.map SampleRec.currentMA).map
      (fun c => (c - listMean (recs.map SampleRec.currentMA)) ^ 2))
    avgPowerW := listMean (recs.map derivedPowerW)
    peakPowerW := listMax (recs.map derivedPowerW)
    minVoltageSeen := listMin (recs.map SampleRec.busV)
    maxVoltageSeen := listMax (recs.map SampleRec.busV) }

/-- Modelled from the spec's words, for comparison with `summarize`:
"power taken from the recorded power samples" — the mean of the recorded
`power_mW` channel, converted to watts. -/
def specAvgRecordedPowerW (recs : List SampleRec) : ℚ :=
  listMean (recs.map SampleRec.powerMW) / 1000

/-! Helper lemmas about rounding, sorted lists and `npInterp`. -/

lemma abs_round2_sub (x : ℚ) : |round2 x - x| ≤ 1 / 200 := by
  have h := abs_sub_round (100 * x)
  have h100 : (0 : ℚ) < 100 := by norm_num
  have : round2 x - x = ((round (100 * x) : ℚ) - 100 * x) / 100 := by
    unfold round2; field_simp
  rw [this, abs_div, abs_of_pos h100, abs_sub_comm]
  linarith [h]

lemma pairwise_headI_le {l : List (ℚ × ℚ)}
    (hs : l.Pairwise (fun p q => p.1 < q.1)) (j : ℕ) (hj : j < l.length) :
    l.headI.1 ≤ (l.get ⟨j, hj⟩).1 := by
  cases l with
  | nil => simp at hj
  | cons a t =>
    cases j with
    | zero => simp
    | succ m =>
      have h0 : (0 : ℕ) < m + 1 := Nat.succ_pos m
      have := (List.pairwise_iff_get.mp hs) ⟨0, by omega⟩ ⟨m + 1, hj⟩ (by simp [Fin.lt_def])
      simpa using this.le

lemma getLastD_cons_cons {α : Type} (a b : α) (l : List α) (d : α) :
    (a :: b :: l).getLastD d = (b :: l).getLastD d := by
  simp [List.getLastD_eq_getLast?]

lemma fst_le_getLastD : ∀ (l : List (ℚ × ℚ)),
    l.Pairwise (fun p q => p.1 < q.1) →
    ∀ p ∈ l, p.1 ≤ (l.getLastD (0, 0)).1 := by
  intro l
  induction l with
  | nil => simp
  | cons a t IH =>
    intro hs p hp
    cases t with
    | nil =>
      simp only [List.mem_singleton] at hp
      subst hp
      simp [List.getLastD]
    | cons b r =>
      rw [getLastD_cons_cons]
      rcases List.mem_cons.mp hp with h | h
      · subst h
        have hab : p.1 < b.1 := (List.pairwise_cons.mp hs).1 b (by simp)
        exact hab.le.trans (IH hs.of_cons b (by simp))
      · exact IH hs.of_cons p h

lemma interp_ge_all : ∀ (pts : List (ℚ × ℚ)), pts ≠ [] → ∀ (x : ℚ),
    (∀ p ∈ pts, ¬ x < p.1) → npInterp x pts = (pts.getLastD (0, 0)).2 := by
  intro pts
  induction pts with
  | nil => simp
  | cons p ps IH =>
    intro _ x hall
    cases ps with
    | nil => simp [npInterp, List.getLastD]
    | cons q rest =>
      have hq : ¬ x < q.1 := hall q (by simp)
      have hstep : npInterp x (p :: q :: rest) = npInterp x (q :: rest) := by
        simp only [npInterp]
        rw [if_neg hq]
      rw [hstep, IH (by simp) x (fun r hr => hall r (List.mem_cons_of_mem p hr)),
        getLastD_cons_cons]

lemma interp_first (pts : List (ℚ × ℚ)) (h2 : 2 ≤ pts.length)
    (hs : pts.Pairwise (fun p q => p.1 < q.1)) :
    npInterp pts.headI.1 pts = pts.headI.2 := by
  match pts, h2 with
  | p :: q :: rest, _ =>
    have hpq : p.1 < q.1 := (List.pairwise_cons.mp hs).1 q (by simp)
    show npInterp p.1 (p :: q :: rest) = p.2
    simp only [npInterp]
    rw [if_pos hpq, if_neg (lt_irrefl p.1)]
    simp

lemma interp_last (pts : List (ℚ × ℚ)) (h2 : 2 ≤ pts.length)
    (hs : pts.Pairwise (fun p q => p.1 < q.1)) :
    npInterp (pts.getLastD (0, 0)).1 pts = (pts.getLastD (0, 0)).2 := by
  apply interp_ge_all pts (by rintro rfl; simp at h2)
  intro p hp
  exact not_lt.2 (fst_le_getLastD pts hs p hp)

lemma interp_segment : ∀ (pts : List (ℚ × ℚ)),
    pts.Pairwise (fun p q => p.1 < q.1) →
    ∀ (i : ℕ) (hi : i + 1 < pts.length) (x : ℚ),
      (pts.get ⟨i, Nat.lt_of_succ_lt hi⟩).1 ≤ x → x < (pts.get ⟨i + 1, hi⟩).1 →
      npInterp x pts =
        (pts.get ⟨i, Nat.lt_of_succ_lt hi⟩).2 +
          ((pts.get ⟨i + 1, hi⟩).2 - (pts.get ⟨i, Nat.lt_of_succ_lt hi⟩).2) *
            (x - (pts.get ⟨i, Nat.lt_of_succ_lt hi⟩).1) /
            ((pts.get ⟨i + 1, hi⟩).1 - (pts.get ⟨i, Nat.lt_of_succ_lt hi⟩).1) := by
  intro pts
  induction pts with
  | nil => intro _ i hi; simp at hi
  | cons p ps IH =>
    intro hs i hi x hlo hhi
    cases i with
    | zero =>
      cases ps with
      | nil => simp at hi
      | cons q rest =>
        have hx1 : x < q.1 := by simpa using hhi
        have hx0 : ¬ x < p.1 := not_lt.2 (by simpa using hlo)
        simp only [npInterp]
        rw [if_pos hx1, if_neg hx0]
        simp
    | succ j =>
      cases ps with
      | nil => simp at hi
      | cons q rest =>
        have hj2 : j + 1 < (q :: rest).length := by simpa using hi
        have hq : q.1 ≤ x := by
          have h1 : (q :: rest).headI.1 ≤ ((q :: rest).get ⟨j, Nat.lt_of_succ_lt hj2⟩).1 :=
            pairwise_headI_le hs.of_cons j (Nat.lt_of_succ_lt hj2)
          exact le_trans (by simpa using h1) (by simpa using hlo)
        have hstep : npInterp x (p :: q :: rest) = npInterp x (q :: rest) := by
          simp only [npInterp]
          rw [if_neg (not_lt.2 hq)]
        rw [hstep]
        have := IH hs.of_cons j hj2 x (by simpa using hlo) (by simpa using hhi)
        simpa using this

lemma lin_between {t0 t1 v0 v1 x : ℚ} (h01 : t0 < t1) (hx0 : t0 ≤ x) (hx1 : x ≤ t1) :
    min v0 v1 ≤ v0 + (v1 - v0) * (x - t0) / (t1 - t0) ∧
    v0 + (v1 - v0) * (x - t0) / (t1 - t0) ≤ max v0 v1 := by
  have hd : 0 < t1 - t0 := sub_pos.2 h01
  have hs0 : 0 ≤ (x - t0) / (t1 - t0) := div_nonneg (by linarith) hd.le
  have hs1 : (x - t0) / (t1 - t0) ≤ 1 := (div_le_one hd).2 (by linarith)
  have hrw : (v1 - v0) * (x - t0) / (t1 - t0) = (v1 - v0) * ((x - t0) / (t1 - t0)) :=
    mul_div_assoc _ _ _
  rw [hrw]
  set s := (x - t0) / (t1 - t0)
  constructor
  · rcases le_total v0 v1 with h | h
    · rw [min_eq_left h]
      nlinarith [mul_nonneg (sub_nonneg.2 h) hs0]
    · rw [min_eq_right h]
      nlinarith [mul_nonneg (sub_nonneg.2 h) (sub_nonneg.2 hs1)]
  · rcases le_total v0 v1 with h | h
    · rw [max_eq_right h]
      nlinarith [mul_nonneg (sub_nonneg.2 h) (sub_nonneg.2 hs1)]
    · rw [max_eq_left h]
      nlinarith [mul_nonneg (sub_nonneg.2 h) hs0]

lemma mem_le_getLastD : ∀ (l : List ℚ), l.Pairwise (· < ·) →
    ∀ a ∈ l, a ≤ l.getLastD 0 := by
  intro l
  induction l with
  | nil => simp
  | cons a t IH =>
    intro hs p hp
    cases t with
    | nil =>
      simp only [List.mem_singleton] at hp
      subst hp
      simp [List.getLastD]
    | cons b r =>
      rw [getLastD_cons_cons]
      rcases List.mem_cons.mp hp with h | h
      · subst h
        have hab : p < b := (List.pairwise_cons.mp hs).1 b (by simp)
        exact hab.le.trans (IH hs.of_cons b (by simp))
      · exact IH hs.of_cons p h

lemma snd_getLastD_zip : ∀ (l r : List ℚ), l.length = r.length → r ≠ [] →
    ((l.zip r).getLastD (0, 0)).2 = r.getLastD 0 := by
  intro l
  induction l with
  | nil =>
    intro r h hne
    cases r with
    | nil => simp at hne
    | cons b r' => simp at h
  | cons a l' IH =>
    intro r h hne
    cases r with
    | nil => simp at h
    | cons b r' =>
      cases l' with
      | nil =>
        cases r' with
        | nil => simp [List.getLastD]
        | cons d r'' => simp at h
      | cons c l'' =>
        cases r' with
        | nil => simp at h
        | cons d r'' =>
          have hlen : (c :: l'').length = (d :: r'').length := by simpa using h
          have := IH (d :: r'') hlen (by simp)
          simpa [List.zip_cons_cons, getLastD_cons_cons] using this

/-! Claim theorems. -/

/-- C1: for every profile with at least 2 points (offsets ascending, as the
spec's data model assumes), the interpolator is exact at both endpoints, and
for every `x` strictly between two consecutive offsets `t0 < t1` with
voltages `v0, v1` it returns exactly `v0 + (v1-v0)*(x-t0)/(t1-t0)`, which
lies between `min v0 v1` and `max v0 v1` inclusive; the two-decimal rounded
value used by the program is within `1/200` of that formula. -/
theorem c1_interp_endpoints_and_segment (pts : List (ℚ × ℚ)) (h2 : 2 ≤ pts.length)
    (hs : pts.Pairwise (fun p q => p.1 < q.1)) :
    (npInterp pts.headI.1 pts = pts.headI.2 ∧
      npInterp (pts.getLastD (0, 0)).1 pts = (pts.getLastD (0, 0)).2) ∧
    ∀ (i : ℕ) (hi : i + 1 < pts.length) (t0 v0 t1 v1 x : ℚ),
      pts.get ⟨i, Nat.lt_of_succ_lt hi⟩ = (t0, v0) →
      pts.get ⟨i + 1, hi⟩ = (t1, v1) →
      t0 < x → x < t1 →
      npInterp x pts = v0 + (v1 - v0) * (x - t0) / (t1 - t0) ∧
      min v0 v1 ≤ v0 + (v1 - v0) * (x - t0) / (t1 - t0) ∧
      v0 + (v1 - v0) * (x - t0) / (t1 - t0) ≤ max v0 v1 ∧
      |round2 (npInterp x pts) - (v0 + (v1 - v0) * (x - t0) / (t1 - t0))| ≤ 1 / 200 := by
  refine ⟨⟨interp_first pts h2 hs, interp_last pts h2 hs⟩, ?_⟩
  intro i hi t0 v0 t1 v1 x h0 h1 hx0 hx1
  have h01 : t0 < t1 := by
    have := (List.pairwise_iff_get.mp hs) ⟨i, Nat.lt_of_succ_lt hi⟩ ⟨i + 1, hi⟩
      (by simp [Fin.lt_def])
    rw [h0, h1] at this
    exact this
  have hseg := interp_segment pts hs i hi x (by rw [h0]; exact hx0.le) (by rw [h1]; exact hx1)
  rw [h0, h1] at hseg
  have hb := @lin_between t0 t1 v0 v1 x h01 hx0.le hx1.le
  refine ⟨hseg, hb.1, hb.2, ?_⟩
  rw [hseg]
  exact abs_round2_sub _

/-- Witness for C1 on the profile `[(0,5),(10,4)]` at `x = 5`. -/
theorem c1_witness :
    (npInterp 0 [((0 : ℚ), (5 : ℚ)), (10, 4)] = 5 ∧
      npInterp 10 [((0 : ℚ), (5 : ℚ)), (10, 4)] = 4) ∧
    (npInterp 5 [((0 : ℚ), (5 : ℚ)), (10, 4)] = 5 + (4 - 5) * (5 - 0) / (10 - 0) ∧
      min (5 : ℚ) 4 ≤ 5 + (4 - 5) * (5 - 0) / (10 - 0) ∧
      (5 : ℚ) + (4 - 5) * (5 - 0) / (10 - 0) ≤ max 5 4 ∧
      |round2 (npInterp 5 [((0 : ℚ), (5 : ℚ)), (10, 4)]) -
        (5 + (4 - 5) * (5 - 0) / (10 - 0))| ≤ 1 / 200) := by
  have h := c1_interp_endpoints_and_segment [((0 : ℚ), (5 : ℚ)), (10, 4)]
    (by decide) (by decide)
  exact ⟨h.1, h.2 0 (by decide) 0 5 10 4 5 rfl rfl (by norm_num) (by norm_num)⟩

/-- C2: for every loaded profile with at least 2 points (timestamps
ascending), the interpolated setpoint clamps to the nearest endpoint:
below 0 it equals the first voltage, above `total_duration` the last. -/
theorem c2_clamp_outside (epochs volts : List ℚ) (h2 : 2 ≤ epochs.length)
    (hlen : epochs.length = volts.length)
    (hs : epochs.Pairwise (· < ·)) (x : ℚ) :
    (x < 0 → npInterp x (profilePts epochs volts) = volts.headI) ∧
    (totalDuration (mkOffsets epochs) < x →
      npInterp x (profilePts epochs volts) = volts.getLastD 0) := by
  have hofflen : (mkOffsets epochs).length = volts.length := by
    simp [mkOffsets, ← hlen]
  have hoff : (mkOffsets epochs).Pairwise (· < ·) := by
    unfold mkOffsets
    exact List.pairwise_map.mpr (List.Pairwise.imp (fun h => sub_lt_sub_right h _) hs)
  constructor
  · intro hx
    rcases epochs with _ | ⟨e0, _ | ⟨e1, es⟩⟩ <;> try simp at h2
    rcases volts with _ | ⟨w0, _ | ⟨w1, ws⟩⟩ <;> try simp at hlen
    have he : e0 < e1 := (List.pairwise_cons.mp hs).1 e1 (by simp)
    show npInterp x (((e0 :: e1 :: es).map
      (fun t => t - (e0 :: e1 :: es).headI)).zip (w0 :: w1 :: ws)) = _
    simp only [List.headI, List.map_cons, List.zip_cons_cons]
    simp only [npInterp]
    rw [if_pos (by linarith), if_pos (by linarith)]
  · intro hx
    have hne : profilePts epochs volts ≠ [] := by
      have hlp : (profilePts epochs volts).length = epochs.length := by
        simp [profilePts, List.length_zip, hofflen, ← hlen]
      have hpos : 0 < (profilePts epochs volts).length := by rw [hlp]; omega
      exact List.length_pos.mp hpos
    rw [interp_ge_all (profilePts epochs volts) hne x ?_]
    · exact snd_getLastD_zip (mkOffsets epochs) volts hofflen
        (List.length_pos.mp (by omega))
    · intro p hp
      have hmem : p.1 ∈ mkOffsets epochs := by
        have := List.mem_map_of_mem Prod.fst hp
        simp only [profilePts] at this
        rwa [List.map_fst_zip _ _ (le_of_eq hofflen)] at this
      have hle : p.1 ≤ (mkOffsets epochs).getLastD 0 :=
        mem_le_getLastD (mkOffsets epochs) hoff p.1 hmem
      have : p.1 < x := lt_of_le_of_lt hle hx
      exact not_lt.2 this.le

/-- Witness for C2 on epochs `[100,110]`, voltages `[5,4]`, at `x = -1`
and `x = 11`. -/
theorem c2_witness :
    npInterp (-1 : ℚ) (profilePts [100, 110] [5, 4]) = 5 ∧
    npInterp (11 : ℚ) (profilePts [100, 110] [5, 4]) = 4 := by
  have h := c2_clamp_outside [100, 110] [5, 4] (by decide) (by decide) (by decide)
  exact ⟨(h (-1)).1 (by norm_num),
    (h 11).2 (by norm_num [totalDuration, mkOffsets, List.getLastD])⟩

lemma getLastD_map (f : ℚ → ℚ) : ∀ (l : List ℚ), l ≠ [] → ∀ (d d' : ℚ),
    (l.map f).getLastD d = f (l.getLastD d') := by
  intro l
  induction l with
  | nil => simp
  | cons a t IH =>
    intro _ d d'
    cases t with
    | nil => simp [List.getLastD]
    | cons b r =>
      rw [List.map_cons, List.map_cons, getLastD_cons_cons, getLastD_cons_cons,
        ← List.map_cons]
      exact IH (by simp) d a

/-- C8: each stored offset is the row's timestamp minus the first row's
timestamp, the first offset is 0, `total_duration` is the last offset
(last timestamp minus first), and the voltage column reaches the
interpolation profile unchanged. -/
theorem c8_loader_offsets (epochs volts : List ℚ) (h : epochs ≠ []) :
    (mkOffsets epochs).headI = 0 ∧
    (∀ i, i < epochs.length →
      (mkOffsets epochs).getD i 0 = epochs.getD i 0 - epochs.headI) ∧
    totalDuration (mkOffsets epochs) = epochs.getLastD 0 - epochs.headI ∧
    (epochs.length = volts.length →
      (profilePts epochs volts).map Prod.snd = volts) := by
  refine ⟨?_, ?_, ?_, ?_⟩
  · cases epochs with
    | nil => exact absurd rfl h
    | cons e es => simp [mkOffsets]
  · intro i hi
    rw [List.getD_eq_getD_get?, List.getD_eq_getD_get?, mkOffsets, List.get?_map]
    cases hq : epochs.get? i with
    | none =>
      have := List.get?_eq_none.mp hq
      omega
    | some e => simp
  · rw [totalDuration, mkOffsets, getLastD_map _ epochs h 0 0]
  · intro hlen
    have hofflen : volts.length ≤ (mkOffsets epochs).length := by
      simp [mkOffsets, ← hlen]
    exact List.map_snd_zip _ _ hofflen

/-- Witness for C8 on epochs `[100,110]`, voltages `[5,4]`. -/
theorem c8_witness :
    (mkOffsets [100, 110]).headI = 0 ∧
    (mkOffsets [100, 110]).getD 1 0 = ([100, 110] : List ℚ).getD 1 0 - ([100, 110] : List ℚ).headI ∧
    totalDuration (mkOffsets [100, 110]) = ([100, 110] : List ℚ).getLastD 0 - ([100, 110] : List ℚ).headI ∧
    (profilePts [100, 110] [5, 4]).map Prod.snd = [5, 4] := by
  have h := c8_loader_offsets [100, 110] [5, 4] (by simp)
  exact ⟨h.1, h.2.1 1 (by norm_num), h.2.2.1, h.2.2.2 (by norm_num)⟩

/-- C7: an empty identity response makes the process exit with status 2
after only the sensor initialisation and the probe itself; in particular
the output-enable command is never sent. -/
theorem c7_empty_idn_no_output (env : Env) (fuel : ℕ) (h : env.idn = "") :
    (mainRun env fuel).1 = [Ev.inaInit, Ev.idnProbe] ∧
    Ev.out1 ∉ (mainRun env fuel).1 ∧
    (mainRun env fuel).2 = Outcome.exited 2 := by
  have h1 : mainRun env fuel = ([Ev.inaInit, Ev.idnProbe], Outcome.exited 2) := by
    simp [mainRun, h]
  rw [h1]
  exact ⟨rfl, by simp, rfl⟩

/-- Environment for an empty identity response. -/
def envIdnFail : Env :=
  { idn := "", epochs := [0, 10], volts := [5, 4], climit := 1/2,
    clock := fun n => n, sensor := fun _ => (5, 100, 500), fault := fun _ => none }

/-- Witness for C7 on `envIdnFail`. -/
theorem c7_witness :
    (mainRun envIdnFail 3).1 = [Ev.inaInit, Ev.idnProbe] ∧
    Ev.out1 ∉ (mainRun envIdnFail 3).1 ∧
    (mainRun envIdnFail 3).2 = Outcome.exited 2 :=
  c7_empty_idn_no_output envIdnFail 3 rfl

/-- Environment with a one-row profile and a healthy supply. -/
def envShortProfile : Env :=
  { idn := "KA3005P", epochs := [100], volts := [5], climit := 1/2,
    clock := fun n => n, sensor := fun _ => (5, 100, 500), fault := fun _ => none }

/-- C6 counterexample: with a 1-row profile the program does exit with
status 2, but the trace already contains the INA219 initialisation and the
serial `*IDN?` probe — serial and sensor I/O happen before the exit,
because device setup precedes profile loading in the script. -/
theorem c6_counterexample :
    Ev.idnProbe ∈ (mainRun envShortProfile 3).1 ∧
    Ev.inaInit ∈ (mainRun envShortProfile 3).1 ∧
    (mainRun envShortProfile 3).2 = Outcome.exited 2 := by
  simp [mainRun, envShortProfile]

/-- C6 amended: with a 0- or 1-row profile the program exits with status 2
having performed exactly the sensor initialisation and the identity probe;
no set-point command is sent and the output is never enabled. -/
theorem c6_short_profile_exit (env : Env) (fuel : ℕ) (h : env.epochs.length < 2) :
    mainRun env fuel = ([Ev.inaInit, Ev.idnProbe], Outcome.exited 2) ∧
    Ev.out1 ∉ (mainRun env fuel).1 ∧
    (∀ v, Ev.vset v ∉ (mainRun env fuel).1) ∧
    Ev.idnProbe ∈ (mainRun env fuel).1 := by
  have h1 : mainRun env fuel = ([Ev.inaInit, Ev.idnProbe], Outcome.exited 2) := by
    by_cases hidn : env.idn = "" <;> simp [mainRun, hidn, h]
  rw [h1]
  exact ⟨rfl, by simp, by simp, by simp⟩

/-- Witness for the amended C6 on `envShortProfile`. -/
theorem c6_witness :
    mainRun envShortProfile 3 = ([Ev.inaInit, Ev.idnProbe], Outcome.exited 2) ∧
    Ev.out1 ∉ (mainRun envShortProfile 3).1 ∧
    (∀ v, Ev.vset v ∉ (mainRun envShortProfile 3).1) ∧
    Ev.idnProbe ∈ (mainRun envShortProfile 3).1 :=
  c6_short_profile_exit envShortProfile 3 (by norm_num [envShortProfile])

lemma loop_no_out0_no_close (env : Env) (D : ℚ) (pts : List (ℚ × ℚ)) :
    ∀ (fuel k : ℕ) (last : Option ℚ),
      Ev.out0 ∉ (replayLoop env D pts fuel k last).1 ∧
      Ev.closePSU ∉ (replayLoop env D pts fuel k last).1 := by
  intro fuel
  induction fuel with
  | zero => intro k last; simp [replayLoop]
  | succ f IH =>
    intro k last
    simp only [replayLoop]
    split
    · simp
    · rcases hf : env.fault k with _ | fk
      · simp only [hf]
        constructor
        · simp only [List.mem_append, List.mem_cons]
          push_neg
          refine ⟨?_, by simp, by simp, (IH (k + 1) _).1⟩
          simp [debounceStep]
          split <;> simp
        · simp only [List.mem_append, List.mem_cons]
          push_neg
          refine ⟨?_, by simp, by simp, (IH (k + 1) _).2⟩
          simp [debounceStep]
          split <;> simp
      · cases fk <;> simp only [hf] <;>
          constructor <;>
          · simp [debounceStep]
            split <;> simp

lemma append_cons_split {α : Type} (a : α) :
    ∀ (p : List α) (s l r : List α), p ++ a :: s = l ++ a :: r →
      a ∉ p → a ∉ l → p = l ∧ s = r := by
  intro p
  induction p with
  | nil =>
    intro s l r h _ hl
    cases l with
    | nil =>
      simp only [List.nil_append] at h
      injection h with _ h2
      exact ⟨rfl, h2⟩
    | cons x l' =>
      simp only [List.nil_append, List.cons_append] at h
      injection h with h1 _
      refine absurd ?_ hl
      rw [h1]
      exact List.mem_cons_self x l'
  | cons y p' IH =>
    intro s l r h hp hl
    cases l with
    | nil =>
      simp only [List.cons_append, List.nil_append] at h
      injection h with h1 _
      refine absurd ?_ hp
      rw [← h1]
      exact List.mem_cons_self y p'
    | cons x l' =>
      simp only [List.cons_append] at h
      injection h with h1 ht
      have := IH s l' r ht (fun hm => hp (List.mem_cons_of_mem y hm))
        (fun hm => hl (List.mem_cons_of_mem x hm))
      exact ⟨by rw [h1, this.1], this.2⟩

/-- Shutdown contract after a fault: exactly one output-disable command,
the serial channel closed, exit status 2, and no voltage-set command after
the output-disable. -/
def faultShutdownSpec (tr : List Ev) (oc : Outcome) : Prop :=
  tr.count Ev.out0 = 1 ∧
  Ev.closePSU ∈ tr ∧
  oc = Outcome.exited 2 ∧
  ∀ l r, tr = l ++ Ev.out0 :: r → ∀ v, Ev.vset v ∉ r

/-- C4: if an exception (of a kind `except Exception` catches) is raised
inside the polling loop, the program sends the output-disable command
exactly once, closes the serial channel, exits with status 2, and sends no
voltage-set command after the output-disable. -/
theorem c4_exception_shutdown (env : Env) (fuel : ℕ)
    (hidn : ¬ env.idn = "") (hlen : ¬ env.epochs.length < 2)
    (hexc : (replayLoop env (totalDuration (mkOffsets env.epochs))
      (profilePts env.epochs env.volts) fuel 0 none).2 = LoopEnd.raisedExc) :
    faultShutdownSpec (mainRun env fuel).1 (mainRun env fuel).2 := by
  have hmain : mainRun env fuel =
      ((startupEvs env ++ (replayLoop env (totalDuration (mkOffsets env.epochs))
        (profilePts env.epochs env.volts) fuel 0 none).1) ++ [Ev.out0, Ev.closePSU],
       Outcome.exited 2) := by
    simp only [mainRun, if_neg hidn, if_neg hlen]
    rw [hexc, List.append_assoc]
  set L := (replayLoop env (totalDuration (mkOffsets env.epochs))
    (profilePts env.epochs env.volts) fuel 0 none).1 with hL
  have hno : Ev.out0 ∉ startupEvs env ++ L := by
    simp only [List.mem_append]
    push_neg
    exact ⟨by simp [startupEvs], (loop_no_out0_no_close env _ _ fuel 0 none).1⟩
  have hc1 : List.count Ev.out0 (startupEvs env) = 0 := by simp [startupEvs]
  have hc2 : List.count Ev.out0 L = 0 :=
    List.count_eq_zero.mpr (loop_no_out0_no_close env _ _ fuel 0 none).1
  refine ⟨?_, ?_, ?_, ?_⟩
  · rw [hmain]
    simp [List.count_append, hc1, hc2]
  · rw [hmain]
    simp
  · rw [hmain]
  · intro l r heq v hv
    rw [hmain] at heq
    have heq' : (startupEvs env ++ L) ++ Ev.out0 :: [Ev.closePSU] = l ++ Ev.out0 :: r := heq
    have hcount : ((startupEvs env ++ L) ++ Ev.out0 :: [Ev.closePSU]).count Ev.out0 = 1 := by
      simp [List.count_append, hc1, hc2]
    have hnl : Ev.out0 ∉ l := by
      rw [heq'] at hcount
      simp only [List.count_append, List.count_cons_self] at hcount
      apply List.count_eq_zero.mp
      omega
    have := append_cons_split Ev.out0 (startupEvs env ++ L) [Ev.closePSU] l r heq' hno hnl
    rw [← this.2] at hv
    simp at hv

/-- Environment with a valid 2-point profile in which a `KeyboardInterrupt`
is delivered during the first loop iteration. -/
def envInterrupted : Env :=
  { idn := "KA3005P", epochs := [0, 10], volts := [5, 4], climit := 1/2,
    clock := fun n => n, sensor := fun _ => (5, 100, 500),
    fault := fun _ => some FaultKind.interrupt }

/-- C3: a `KeyboardInterrupt` delivered during `RUNNING` is NOT routed
through the shutdown path: the source's `except Exception` handler does not
match `KeyboardInterrupt` (a `BaseException`), so the output-disable command
is never sent, the serial channel is never closed, and the supply output —
enabled earlier — is left on when the process dies. -/
theorem c3_interrupt_skips_shutdown :
    Ev.out1 ∈ (mainRun envInterrupted 3).1 ∧
    Ev.out0 ∉ (mainRun envInterrupted 3).1 ∧
    Ev.closePSU ∉ (mainRun envInterrupted 3).1 ∧
    (mainRun envInterrupted 3).2 = Outcome.uncaughtInterrupt := by
  norm_num [mainRun, replayLoop, startupEvs, debounceStep, round2, npInterp,
    profilePts, mkOffsets, totalDuration, List.getLastD, round_eq, envInterrupted]
  simp

/-- Environment with a valid 2-point profile in which an `Exception` is
raised at the first loop iteration's sensor read. -/
def envFaulted : Env :=
  { idn := "KA3005P", epochs := [0, 10], volts := [5, 4], climit := 1/2,
    clock := fun n => n, sensor := fun _ => (5, 100, 500),
    fault := fun _ => some FaultKind.exc }

/-- Witness for C4 on `envFaulted`. -/
theorem c4_witness : faultShutdownSpec (mainRun envFaulted 3).1 (mainRun envFaulted 3).2 := by
  refine c4_exception_shutdown envFaulted 3 (by simp [envFaulted]) (by norm_num [envFaulted]) ?_
  norm_num [replayLoop, debounceStep, round2, npInterp,
    profilePts, mkOffsets, totalDuration, List.getLastD, round_eq, envFaulted]

/-- Environment whose profile starts and stays at 5.00 V, so the first
loop iteration's interpolated target equals the start-up voltage. -/
def envConstProfile : Env :=
  { idn := "KA3005P", epochs := [0, 1], volts := [5, 5], climit := 1/2,
    clock := fun n => n, sensor := fun _ => (5, 100, 500), fault := fun _ => none }

/-- C5 counterexample: the start-up `set_voltage(5.00)` and the first loop
iteration's identical rounded target `5.00` produce TWO `VSET1` commands,
not one, because `last_set_voltage` starts as `None` rather than as the
start-up value. -/
theorem c5_counterexample : ((mainRun envConstProfile 3).1.count (Ev.vset 5)) = 2 := by
  norm_num [mainRun, replayLoop, startupEvs, debounceStep, round2, npInterp,
    profilePts, mkOffsets, totalDuration, List.getLastD, round_eq, envConstProfile]
  simp [List.count_cons]

/-- C5 amended: a voltage-set command is suppressed exactly when the rounded
target equals the last value sent; `last_set_voltage` starts as `None`, so
the first loop iteration always sends (even when its target equals the
start-up voltage, giving two commands in total for that case); and once a
value `v` has been sent, a run of iterations whose rounded targets all equal
`v` issues no further voltage-set command at all. -/
theorem c5_debounce :
    (∀ t : ℚ, debounceStep none t = ([Ev.vset t], some t)) ∧
    (∀ v t : ℚ, t = v → debounceStep (some v) t = ([], some v)) ∧
    (∀ (env : Env) (D : ℚ) (pts : List (ℚ × ℚ)) (fuel k : ℕ) (v : ℚ),
      (∀ j, round2 (npInterp (env.clock (j + 1) - env.clock 0) pts) = v) →
      ∀ w, Ev.vset w ∉ (replayLoop env D pts fuel k (some v)).1) := by
  refine ⟨fun t => by simp [debounceStep], fun v t ht => by simp [debounceStep, ht], ?_⟩
  intro env D pts fuel
  induction fuel with
  | zero => intro k v _ w; simp [replayLoop]
  | succ f IH =>
    intro k v hall w
    simp only [replayLoop]
    split
    · simp
    · have htgt : round2 (npInterp (env.clock (k + 1) - env.clock 0) pts) = v := hall k
      rw [htgt]
      have hdb : debounceStep (some v) v = ([], some v) := by simp [debounceStep]
      rw [hdb]
      rcases hf : env.fault k with _ | fk
      · simp only [hf]
        simp only [List.nil_append, List.mem_cons]
        push_neg
        exact ⟨by simp, by simp, IH (k + 1) v hall w⟩
      · cases fk <;> simp [hf]

/-- Witness for the amended C5: concrete debounce steps, and no further
voltage-set in the loop of `envConstProfile` once 5 was sent. -/
theorem c5_witness :
    debounceStep none 5 = ([Ev.vset 5], some 5) ∧
    debounceStep (some 5) 5 = ([], some 5) ∧
    Ev.vset 4 ∉ (replayLoop envConstProfile 1 [(0, 5), (1, 5)] 3 0 (some 5)).1 := by
  have hconst : ∀ x : ℚ, round2 (npInterp x [(0, 5), (1, 5)]) = 5 := by
    intro x
    have h5 : npInterp x [(0, 5), (1, 5)] = 5 := by
      simp only [npInterp]
      split
      · split
        · rfl
        · norm_num
      · simp [npInterp]
    rw [h5]
    norm_num [round2, round_eq]
  exact ⟨c5_debounce.1 5, c5_debounce.2.1 5 5 rfl,
    c5_debounce.2.2 envConstProfile 1 [(0, 5), (1, 5)] 3 0 5 (fun j => hconst _) 4⟩

lemma row_not_in_debounce (last : Option ℚ) (t e a v i p : ℚ) :
    Ev.row e a v i p ∉ (debounceStep last t).1 := by
  simp only [debounceStep]
  split <;> simp

/-- C10: every sample row recorded by the loop has `elapsed` in
`[0, total_duration]` (for a clock that never runs backwards past the start
reading); an iteration whose `elapsed` equals `total_duration` exactly still
records its sample row; and an iteration whose `elapsed` strictly exceeds
`total_duration` terminates the loop recording nothing. -/
theorem c10_row_bounds :
    (∀ (env : Env) (D : ℚ) (pts : List (ℚ × ℚ)) (fuel k : ℕ) (last : Option ℚ),
      (∀ n, env.clock 0 ≤ env.clock n) →
      ∀ e t v i p, Ev.row e t v i p ∈ (replayLoop env D pts fuel k last).1 →
        0 ≤ e ∧ e ≤ D) ∧
    (∀ (env : Env) (D : ℚ) (pts : List (ℚ × ℚ)) (fuel k : ℕ) (last : Option ℚ),
      env.clock (k + 1) - env.clock 0 = D → env.fault k = none →
      Ev.row D (round2 (npInterp D pts)) (env.sensor k).1 (env.sensor k).2.1
        (env.sensor k).2.2 ∈ (replayLoop env D pts (fuel + 1) k last).1) ∧
    (∀ (env : Env) (D : ℚ) (pts : List (ℚ × ℚ)) (fuel k : ℕ) (last : Option ℚ),
      D < env.clock (k + 1) - env.clock 0 →
      replayLoop env D pts (fuel + 1) k last = ([], LoopEnd.finished)) := by
  refine ⟨?_, ?_, ?_⟩
  · intro env D pts fuel
    induction fuel with
    | zero =>
      intro k last _ e t v i p hm
      simp [replayLoop] at hm
    | succ f IH =>
      intro k last hmono e t v i p hm
      simp only [replayLoop] at hm
      split at hm
      · simp at hm
      · rename_i hlt
        rcases hf : env.fault k with _ | fk
        · simp only [hf] at hm
          rcases List.mem_append.mp hm with h1 | h1
          · exact absurd h1 (row_not_in_debounce _ _ _ _ _ _ _)
          · rcases List.mem_cons.mp h1 with h2 | h2
            · simp at h2
            · rcases List.mem_cons.mp h2 with h3 | h3
              · injection h3 with he _ _ _ _
                subst he
                exact ⟨sub_nonneg.mpr (hmono (k + 1)), le_of_not_lt hlt⟩
              · exact IH (k + 1) _ hmono e t v i p h3
        · cases fk <;> simp only [hf] at hm <;>
            exact absurd hm (row_not_in_debounce _ _ _ _ _ _ _)
  · intro env D pts fuel k last hclock hfault
    simp only [replayLoop]
    rw [hclock, if_neg (lt_irrefl D)]
    simp only [hfault]
    simp
  · intro env D pts fuel k last h
    simp only [replayLoop]
    rw [if_pos h]

/-- Witness for C10 on `envConstProfile` (duration 1): the iteration at
`elapsed = 1 = total_duration` records its row and satisfies the bounds, and
the iteration at `elapsed = 2 > 1` finishes the loop with no events. -/
theorem c10_witness :
    ((0 : ℚ) ≤ 1 ∧ (1 : ℚ) ≤ 1) ∧
    Ev.row 1 (round2 (npInterp 1 [((0 : ℚ), (5 : ℚ)), (1, 5)])) 5 100 500 ∈
      (replayLoop envConstProfile 1 [(0, 5), (1, 5)] 3 0 none).1 ∧
    replayLoop envConstProfile 1 [(0, 5), (1, 5)] 3 1 none = ([], LoopEnd.finished) := by
  have hmono : ∀ n, envConstProfile.clock 0 ≤ envConstProfile.clock n := fun n => by
    simp [envConstProfile]
  have hmem := c10_row_bounds.2.1 envConstProfile 1 [(0, 5), (1, 5)] 2 0 none
    (by norm_num [envConstProfile]) rfl
  exact ⟨c10_row_bounds.1 envConstProfile 1 [(0, 5), (1, 5)] 3 0 none hmono
      1 _ 5 100 500 hmem,
    hmem,
    c10_row_bounds.2.2 envConstProfile 1 [(0, 5), (1, 5)] 2 1 none
      (by norm_num [envConstProfile])⟩

lemma foldl_max_le_acc : ∀ (l : List ℚ) (a : ℚ), a ≤ l.foldl max a := by
  intro l
  induction l with
  | nil => intro a; exact le_refl a
  | cons x xs IH => intro a; exact le_trans (le_max_left a x) (IH (max a x))

lemma foldl_max_ge_mem : ∀ (l : List ℚ) (a b : ℚ), b ∈ l → b ≤ l.foldl max a := by
  intro l
  induction l with
  | nil => intro a b hb; simp at hb
  | cons x xs IH =>
    intro a b hb
    rcases List.mem_cons.mp hb with h | h
    · subst h
      exact le_trans (le_max_right a b) (foldl_max_le_acc xs (max a b))
    · exact IH (max a x) b h

lemma foldl_max_mem_or : ∀ (l : List ℚ) (a : ℚ), l.foldl max a = a ∨ l.foldl max a ∈ l := by
  intro l
  induction l with
  | nil => intro a; exact Or.inl rfl
  | cons x xs IH =>
    intro a
    show xs.foldl max (max a x) = a ∨ xs.foldl max (max a x) ∈ x :: xs
    rcases IH (max a x) with h | h
    · rcases max_choice a x with hm | hm
      · rw [hm] at h ⊢
        exact Or.inl h
      · rw [hm] at h ⊢
        exact Or.inr (by rw [h]; exact List.mem_cons_self x xs)
    · exact Or.inr (List.mem_cons_of_mem x h)

lemma listMax_mem (l : List ℚ) (h : l ≠ []) : listMax l ∈ l := by
  cases l with
  | nil => exact absurd rfl h
  | cons x xs =>
    rcases foldl_max_mem_or xs x with h1 | h1
    · rw [listMax, h1]; exact List.mem_cons_self x xs
    · exact List.mem_cons_of_mem x (by rw [listMax]; exact h1)

lemma le_listMax (l : List ℚ) : ∀ a ∈ l, a ≤ listMax l := by
  intro a ha
  cases l with
  | nil => simp at ha
  | cons x xs =>
    rcases List.mem_cons.mp ha with h | h
    · subst h; exact foldl_max_le_acc xs a
    · exact foldl_max_ge_mem xs x a h

lemma foldl_min_ge_acc : ∀ (l : List ℚ) (a : ℚ), l.foldl min a ≤ a := by
  intro l
  induction l with
  | nil => intro a; exact le_refl a
  | cons x xs IH => intro a; exact le_trans (IH (min a x)) (min_le_left a x)

lemma foldl_min_le_mem : ∀ (l : List ℚ) (a b : ℚ), b ∈ l → l.foldl min a ≤ b := by
  intro l
  induction l with
  | nil => intro a b hb; simp at hb
  | cons x xs IH =>
    intro a b hb
    rcases List.mem_cons.mp hb with h | h
    · subst h
      exact le_trans (foldl_min_ge_acc xs (min a b)) (min_le_right a b)
    · exact IH (min a x) b h

lemma foldl_min_mem_or : ∀ (l : List ℚ) (a : ℚ), l.foldl min a = a ∨ l.foldl min a ∈ l := by
  intro l
  induction l with
  | nil => intro a; exact Or.inl rfl
  | cons x xs IH =>
    intro a
    show xs.foldl min (min a x) = a ∨ xs.foldl min (min a x) ∈ x :: xs
    rcases IH (min a x) with h | h
    · rcases min_choice a x with hm | hm
      · rw [hm] at h ⊢
        exact Or.inl h
      · rw [hm] at h ⊢
        exact Or.inr (by rw [h]; exact List.mem_cons_self x xs)
    · exact Or.inr (List.mem_cons_of_mem x h)

lemma listMin_mem (l : List ℚ) (h : l ≠ []) : listMin l ∈ l := by
  cases l with
  | nil => exact absurd rfl h
  | cons x xs =>
    rcases foldl_min_mem_or xs x with h1 | h1
    · rw [listMin, h1]; exact List.mem_cons_self x xs
    · exact List.mem_cons_of_mem x (by rw [listMin]; exact h1)

lemma listMin_le (l : List ℚ) : ∀ a ∈ l, listMin l ≤ a := by
  intro a ha
  cases l with
  | nil => simp at ha
  | cons x xs =>
    rcases List.mem_cons.mp ha with h | h
    · subst h; exact foldl_min_ge_acc xs a
    · exact foldl_min_le_mem xs x a h

lemma listMean_mul_length (l : List ℚ) (h : l ≠ []) : listMean l * l.length = l.sum := by
  have hlen : (l.length : ℚ) ≠ 0 := by
    simpa [Nat.cast_ne_zero] using fun h0 => h (List.length_eq_zero.mp h0)
  rw [listMean, div_mul_cancel₀ _ hlen]

/-- C9 counterexample: on a single sample with bus voltage 2 V, current
1000 mA, recorded power 999 mW, the reporter's average power is
`2 * 1000 / 1000 = 2` W, while the mean of the recorded power samples is
`0.999` W — the code derives power from `bus_voltage * current / 1000` and
ignores the recorded power channel. -/
theorem c9_counterexample :
    (summarize [⟨2, 1000, 999⟩]).avgPowerW ≠ specAvgRecordedPowerW [⟨2, 1000, 999⟩] := by
  norm_num [summarize, specAvgRecordedPowerW, listMean, derivedPowerW, listMax, listMin]

/-- What the reporter actually computes: mean, peak, min and (squared)
standard deviation of the currents, mean and peak of the derived power
`bus_voltage * current / 1000` (not of the recorded power channel, and with
no minimum or standard deviation of power), and the voltage extrema. -/
def summarySpec (recs : List SampleRec) : Prop :=
  (summarize recs).avgCurrent * recs.length = (recs.map SampleRec.currentMA).sum ∧
  (summarize recs).peakCurrent ∈ recs.map SampleRec.currentMA ∧
  (∀ c ∈ recs.map SampleRec.currentMA, c ≤ (summarize recs).peakCurrent) ∧
  (summarize recs).minCurrent ∈ recs.map SampleRec.currentMA ∧
  (∀ c ∈ recs.map SampleRec.currentMA, (summarize recs).minCurrent ≤ c) ∧
  (summarize recs).varCurrent * recs.length =
    ((recs.map SampleRec.currentMA).map
      (fun c => (c - listMean (recs.map SampleRec.currentMA)) ^ 2)).sum ∧
  (summarize recs).avgPowerW * recs.length = (recs.map derivedPowerW).sum ∧
  (summarize recs).peakPowerW ∈ recs.map derivedPowerW ∧
  (∀ w ∈ recs.map derivedPowerW, w ≤ (summarize recs).peakPowerW) ∧
  (summarize recs).minVoltageSeen ∈ recs.map SampleRec.busV ∧
  (summarize recs).maxVoltageSeen ∈ recs.map SampleRec.busV ∧
  (∀ w ∈ recs.map SampleRec.busV,
    (summarize recs).minVoltageSeen ≤ w ∧ w ≤ (summarize recs).maxVoltageSeen)

/-- C9 amended: after the loop the reporter computes mean/max/min/standard
deviation of current, mean and max of power derived as
`bus_voltage * current / 1000` (watts), and the min/max measured voltage —
but no power statistics from the recorded power channel, and no min or
standard deviation of power. -/
theorem c9_reporter_stats (recs : List SampleRec) (h : recs ≠ []) : summarySpec recs := by
  have hmapc : recs.map SampleRec.currentMA ≠ [] := by
    intro hnil
    exact h (List.map_eq_nil.mp hnil)
  have hmapp : recs.map derivedPowerW ≠ [] := by
    intro hnil
    exact h (List.map_eq_nil.mp hnil)
  have hmapv : recs.map SampleRec.busV ≠ [] := by
    intro hnil
    exact h (List.map_eq_nil.mp hnil)
  have hmapsq : (recs.map SampleRec.currentMA).map
      (fun c => (c - listMean (recs.map SampleRec.currentMA)) ^ 2) ≠ [] := by
    intro hnil
    exact hmapc (List.map_eq_nil.mp hnil)
  refine ⟨?_, ?_, ?_, ?_, ?_, ?_, ?_, ?_, ?_, ?_, ?_, ?_⟩
  · have := listMean_mul_length (recs.map SampleRec.currentMA) hmapc
    simpa [summarize, List.length_map] using this
  · exact listMax_mem _ hmapc
  · exact le_listMax _
  · exact listMin_mem _ hmapc
  · exact listMin_le _
  · have := listMean_mul_length ((recs.map SampleRec.currentMA).map
      (fun c => (c - listMean (recs.map SampleRec.currentMA)) ^ 2)) hmapsq
    simpa [summarize, List.length_map] using this
  · have := listMean_mul_length (recs.map derivedPowerW) hmapp
    simpa [summarize, List.length_map] using this
  · exact listMax_mem _ hmapp
  · exact le_listMax _
  · exact listMin_mem _ hmapv
  · exact listMax_mem _ hmapv
  · exact fun w hw => ⟨listMin_le _ w hw, le_listMax _ w hw⟩

/-- Witness for the amended C9 on a two-sample run. -/
theorem c9_witness : summarySpec [⟨2, 1000, 999⟩, ⟨3, 500, 1500⟩] :=
  c9_reporter_stats [⟨2, 1000, 999⟩, ⟨3, 500, 1500⟩] (by simp)
